import Mathlib

/-!
Verification of the BFT consensus core of this repository.

Shallow embedding of:
* `consensus/pbft/core/core.go` — the `core` struct, `New`, `broadcast`,
  `commit`, `setState`;
* the Istanbul prepare-phase handlers exercised by
  `consensus/istanbul/core/prepare_test.go` (`handlePrepare`,
  `verifyPrepare`, `checkMessage`) — their bodies are not part of the
  provided sources, so they are modelled from the specification and
  constrained by the expectations of the test file;
* the `ethDB` persistence adapter (`Save`, `Restore`, `getKey`).

Machine integers (`uint64`, `*big.Int` counters that are always
non-negative here) are modelled as `Nat`; the nillable Go `*big.Int`
fields inside wire subjects are modelled as `Option Nat`.  Side effects
on the `Backend` collaborator (`Send`, `Commit`, event-mux `Post`) are
modelled as explicit effect lists returned alongside the updated state.
-/

namespace Pbft

/-- Consensus phases, `core.go`:
`StateAcceptRequest, StatePreprepared, StatePrepared, StateCommitted,
StateCheckpointReady`. -/
inductive State where
  | AcceptRequest
  | Preprepared
  | Prepared
  | Committed
  | CheckpointReady
deriving DecidableEq, Repr

/-- A view `{viewNumber, sequence}` (`pbft.View`). -/
structure View where
  viewNumber : Nat
  sequence : Nat
deriving DecidableEq, Repr

/-- Proposal: opaque payload plus header digests; only identity matters
for the consensus core, so it is modelled by its content digest and
payload. -/
structure Proposal where
  digest : Nat
  payload : List Nat
deriving DecidableEq, Repr

/-- An accepted `pbft.Preprepare`: view plus proposal. -/
structure Preprepare where
  view : View
  proposal : Proposal
deriving DecidableEq, Repr

/-- The round snapshot held in `core.current` and appended to
`core.snapshots` on commit.  `core.go` dereferences
`current.Preprepare`, `current.ViewNumber`, `current.Sequence`. -/
structure Snapshot where
  viewNumber : Nat
  sequence : Nat
  preprepare : Preprepare
deriving DecidableEq, Repr

/-- Observable effects the pbft core performs on its Backend
collaborator. -/
inductive Effect where
  | backendCommit (p : Proposal)
  | postBuildCheckpoint
deriving DecidableEq, Repr

/-- The `core` struct of `core.go`.  `backlogReplays` is ghost
instrumentation counting invocations of `processBacklog` (whose body
lives outside the provided sources: it re-posts queued messages to the
event mux asynchronously, so the invocation count is its observable
footprint on this state). -/
structure Core where
  address : Nat
  N : Nat
  F : Nat
  state : State
  sequence : Nat
  viewNumber : Nat
  completed : Bool
  current : Option Snapshot
  snapshots : List Snapshot
  backlogReplays : Nat
deriving DecidableEq, Repr

/-- Modelled from the spec: `processBacklog` replays queued backlog
messages by re-posting them to the event mux (asynchronously), so it
does not synchronously modify the consensus fields; only its invocation
is recorded, in the ghost counter. -/
def processBacklog (c : Core) : Core :=
  { c with backlogReplays := c.backlogReplays + 1 }

/-- `core.setState`: if the state differs, assign it and run
`processBacklog`; otherwise do nothing. -/
def setState (c : Core) (s : State) : Core :=
  if c.state ≠ s then
    processBacklog { c with state := s }
  else
    c

/-- `core.New`: `n := backend.Validators().Size()`,
`f := math.Ceil(float64(n)/3) - 1` (exact for representable sizes:
the integer ceiling `(n + 2) / 3` minus one), fresh counters, state
`StateAcceptRequest`, empty backlog and snapshot history, no current
round. -/
def New (n : Nat) (addr : Nat) : Core :=
  { address := addr
    N := n
    F := (n + 2) / 3 - 1
    state := .AcceptRequest
    sequence := 0
    viewNumber := 0
    completed := false
    current := none
    snapshots := []
    backlogReplays := 0 }

/-- `core.commit`: set state `Committed`, apply the proposal via
`backend.Commit`, append the current round to the snapshot history,
adopt the committed round's viewNumber/sequence, mark completed, return
to `AcceptRequest`, and — when the new sequence is divisible by 100 —
post one asynchronous `buildCheckpointEvent`.  `none` models the nil
dereference of `c.current` when no round is active. -/
def commit (c : Core) : Option (Core × List Effect) :=
  match c.current with
  | none => none
  | some cur =>
    let c1 := setState c .Committed
    let eff1 : List Effect := [.backendCommit cur.preprepare.proposal]
    let c2 := { c1 with snapshots := c1.snapshots ++ [cur] }
    let c3 := { c2 with
                viewNumber := cur.viewNumber
                sequence := cur.sequence
                completed := true }
    let c4 := setState c3 .AcceptRequest
    let eff2 : List Effect :=
      if c4.sequence % 100 = 0 then [.postBuildCheckpoint] else []
    some (c4, eff1 ++ eff2)

/-- `core.broadcast`: encode the message, serialize it to a payload,
and send the payload; on either failure, log the error and return
without sending.  The two fallible collaborators (`pbft.Encode`,
`message.ToPayload`) are parameters; the result carries the unchanged
core (the source never assigns to `c`), the payloads handed to
`backend.Send`, and the error surfaced to the logger. -/
def broadcast {Msg Enc Payload : Type}
    (encode : Nat → Msg → Except String Enc)
    (toPayload : Enc → Except String Payload)
    (c : Core) (code : Nat) (msg : Msg) :
    Core × List Payload × Option String :=
  match encode code msg with
  | .error e => (c, [], some e)
  | .ok m =>
    match toPayload m with
    | .error e => (c, [], some e)
    | .ok payload => (c, [payload], none)

/-- Number of checkpoint-build requests in an effect list. -/
def countCheckpointPosts (effs : List Effect) : Nat :=
  (effs.filter (fun e => e = .postBuildCheckpoint)).length

end Pbft

namespace Istanbul

/-- Protocol-rejection errors of the message handlers
(`errOldMessage`, `errFutureMessage`, `errInconsistentSubject`,
`errUnauthorizedAddress`, plus the guard for messages whose view
fields are nil). -/
inductive Err where
  | oldMessage
  | futureMessage
  | inconsistentSubject
  | unauthorizedAddress
  | invalidMessage
deriving DecidableEq, Repr

/-- A wire-level `istanbul.View` inside a decoded Subject: the
`Round` and `Sequence` fields are `*big.Int` and may be nil
(`Option`). -/
structure WView where
  round : Option Nat
  sequence : Option Nat
deriving DecidableEq, Repr

/-- `istanbul.Subject`: `{View, Digest}`.  Two subjects are equal iff
view and digest are both equal (`reflect.DeepEqual`). -/
structure Subject where
  view : WView
  digest : Nat
deriving DecidableEq, Repr

/-- The live `roundState`: its own (concrete) view, the digest of the
accepted Preprepare, and the prepare/commit vote sets keyed by sender
address (deduplicated lists). -/
structure RoundState where
  round : Nat
  sequence : Nat
  digest : Nat
  prepares : List Nat
  commits : List Nat
deriving DecidableEq, Repr

/-- `roundState.Subject()`: the subject derived from the accepted
Preprepare — the own view of the round state plus the proposal digest. -/
def RoundState.subject (rs : RoundState) : Subject :=
  ⟨⟨some rs.round, some rs.sequence⟩, rs.digest⟩

/-- Message codes sent by the core. -/
inductive MsgCode where
  | msgPreprepare
  | msgPrepare
  | msgCommit
deriving DecidableEq, Repr

/-- The Istanbul core state relevant to the prepare phase: phase,
validator set (ordered addresses), fault bound `F`, the live round
state, and the backlog of queued future messages (sender, subject). -/
structure ICore where
  state : Pbft.State
  valSet : List Nat
  F : Nat
  current : RoundState
  backlog : List (Nat × Subject)
deriving DecidableEq, Repr

/-- Strict order on views: compare sequence first, then round. -/
def viewLt (s₁ r₁ s₂ r₂ : Nat) : Prop :=
  s₁ < s₂ ∨ (s₁ = s₂ ∧ r₁ < r₂)

instance (s₁ r₁ s₂ r₂ : Nat) : Decidable (viewLt s₁ r₁ s₂ r₂) := by
  unfold viewLt; infer_instance

/-- Modelled from the spec: `checkMessage` — verify that the view of the vote is
not already past (`errOldMessage`, dropped) nor ahead of current
(`errFutureMessage`, queued by the caller); views compare by sequence
first, then round; a subject whose view fields are nil is rejected
outright. -/
def checkMessage (c : ICore) (v : WView) : Option Err :=
  match v.sequence, v.round with
  | some s, some r =>
    if viewLt s r c.current.sequence c.current.round then some .oldMessage
    else if viewLt c.current.sequence c.current.round s r then some .futureMessage
    else none
  | _, _ => some .invalidMessage

/-- Modelled from the spec: `verifyPrepare` — verify that the subject of the vote
equals `current.Subject()` exactly (view AND digest); any mismatch is
`errInconsistentSubject`. -/
def verifyPrepare (c : ICore) (sub : Subject) : Option Err :=
  if sub = c.current.subject then none else some .inconsistentSubject

/-- Modelled from the spec: `acceptPrepare` — insert the vote into the
prepare set keyed by sender address; a repeated sender does not double
count. -/
def acceptPrepare (c : ICore) (src : Nat) : ICore :=
  if src ∈ c.current.prepares then c
  else { c with current :=
          { c.current with prepares := c.current.prepares ++ [src] } }

/-- Modelled from the spec: `handlePrepare` — on an inbound Prepare
vote: check the view (old votes are dropped with `errOldMessage`;
future votes are queued in the backlog with `errFutureMessage`), check
the sender is a validator-set member (`errUnauthorizedAddress`), check
the subject equals the current subject (`errInconsistentSubject`), then
add the vote to the prepare set; when the prepare set reaches the
2F+1 quorum while the state is still `Preprepared`, broadcast one
Commit vote for the current subject and move to `Prepared`.  Returns
the updated core, the broadcast messages (code and decoded subject; the
encode/`ToPayload`/`FromPayload`/`Decode` round trip is lossless per
the wire-format contract), and the handler error. -/
def handlePrepare (c : ICore) (src : Nat) (sub : Subject) :
    ICore × List (MsgCode × Subject) × Option Err :=
  match checkMessage c sub.view with
  | some .futureMessage =>
    ({ c with backlog := c.backlog ++ [(src, sub)] }, [], some .futureMessage)
  | some e => (c, [], some e)
  | none =>
    if src ∈ c.valSet then
      match verifyPrepare c sub with
      | some e => (c, [], some e)
      | none =>
        let c1 := acceptPrepare c src
        if 2 * c1.F + 1 ≤ c1.current.prepares.length ∧
            c1.state = .Preprepared then
          ({ c1 with state := .Prepared },
           [(.msgCommit, c1.current.subject)], none)
        else
          (c1, [], none)
    else (c, [], some .unauthorizedAddress)

/-- Feed a list of Prepare votes (sender addresses), all carrying the
same subject, to the core in order, collecting everything it
broadcasts. -/
def handleAll (c : ICore) (sub : Subject) :
    List Nat → ICore × List (MsgCode × Subject)
  | [] => (c, [])
  | v :: vs =>
    let r1 := handlePrepare c v sub
    let r2 := handleAll r1.1 sub vs
    (r2.1, r1.2.1 ++ r2.2)

end Istanbul

namespace Simple

/-- Raw byte blobs handed to the database. -/
abbrev Blob := List Nat

/-- The external `ethdb.Database` collaborator: `Put` and `Get`, both
fallible, over an abstract database state `δ`. -/
structure Database (δ : Type) where
  put : δ → String → Blob → Except String δ
  get : δ → String → Except String Blob

/-- The external `encoding/json` collaborator over a value type `α`:
`json.Marshal` and `json.Unmarshal`, both fallible. -/
structure Json (α : Type) where
  marshal : α → Except String Blob
  unmarshal : Blob → Except String α

/-- `prefixKey = "pbft"`. -/
def prefixKey : String := "pbft"

/-- `ethDB.getKey`: `strings.Join([]string{prefixKey, key}, "_")`. -/
def getKey (key : String) : String :=
  String.intercalate "_" [prefixKey, key]

/-- `ethDB.Save`: marshal the value to JSON; on failure return that
error; otherwise `Put` the blob under the prefixed key and return
the result of `Put` as-is. -/
def Save {δ α : Type} (db : Database δ) (J : Json α)
    (d : δ) (key : String) (v : α) : Except String δ :=
  match J.marshal v with
  | .error e => .error e
  | .ok blob => db.put d (getKey key) blob

/-- `ethDB.Restore`: `Get` the blob under the prefixed key; on failure
return that error; otherwise unmarshal it and return the unmarshal
error, or the decoded value. -/
def Restore {δ α : Type} (db : Database δ) (J : Json α)
    (d : δ) (key : String) : Except String α :=
  match db.get d (getKey key) with
  | .error e => .error e
  | .ok blob =>
    match J.unmarshal blob with
    | .error e => .error e
    | .ok v => .ok v

/-- A concrete in-memory database (used to witness the abstract
`Database` interface on concrete runs). -/
def memPut (d : String → Option Blob) (k : String) (b : Blob) :
    Except String (String → Option Blob) :=
  .ok (fun k' => if k' = k then some b else d k')

/-- Concrete in-memory `Get`: absent keys error, like leveldb. -/
def memGet (d : String → Option Blob) (k : String) : Except String Blob :=
  match d k with
  | some b => .ok b
  | none => .error "not found"

/-- The in-memory database packaged as a `Database`. -/
def memDB : Database (String → Option Blob) :=
  ⟨memPut, memGet⟩

/-- A concrete JSON codec for naturals (used in witnesses): a number
marshals to a singleton blob and unmarshals back. -/
def natJson : Json Nat :=
  ⟨fun n => .ok [n],
   fun b => match b with
            | [n] => .ok n
            | _ => .error "malformed"⟩

end Simple

namespace Samples

/-- A committed round snapshot at a given sequence number. -/
def snap (seqv : Nat) : Pbft.Snapshot :=
  ⟨0, seqv, ⟨⟨0, seqv⟩, ⟨5, [7]⟩⟩⟩

/-- A pbft core about to commit the round at sequence `seqv`. -/
def coreAt (seqv : Nat) : Pbft.Core :=
  { address := 0
    N := 4
    F := 1
    state := .Prepared
    sequence := 0
    viewNumber := 0
    completed := false
    current := some (snap seqv)
    snapshots := []
    backlogReplays := 0 }

/-- An encoder that always fails. -/
def encodeFail : Nat → Nat → Except String Nat := fun _ _ => .error "encode failed"

/-- An encoder that always succeeds. -/
def encodeOk : Nat → Nat → Except String Nat := fun _ m => .ok m

/-- A payload serializer that always fails. -/
def toPayloadFail : Nat → Except String Nat := fun _ => .error "marshal failed"

/-- A payload serializer that always succeeds. -/
def toPayloadOk : Nat → Except String Nat := fun m => .ok m

/-- An Istanbul core with N = 4, F = 1, in `Preprepared`, with an
accepted Preprepare at view (round 0, sequence 1) and no votes yet. -/
def iCore : Istanbul.ICore :=
  { state := .Preprepared
    valSet := [0, 1, 2, 3]
    F := 1
    current := ⟨0, 1, 5, [], []⟩
    backlog := [] }

/-- An empty in-memory store. -/
def emptyStore : String → Option Simple.Blob := fun _ => none

/-- The store after saving the blob `[7]` under key `"k"`. -/
def savedStore : String → Option Simple.Blob :=
  fun k => if k = Simple.getKey "k" then some [7] else emptyStore k

end Samples



section Helpers

/-- `setState` always leaves the state field equal to its argument. -/
lemma Pbft.setState_state (c : Pbft.Core) (s : Pbft.State) :
    (Pbft.setState c s).state = s := by
  unfold Pbft.setState Pbft.processBacklog
  by_cases h : c.state = s
  · simp [h]
  · simp [h]

/-- `setState` does not touch the sequence counter. -/
lemma Pbft.setState_sequence (c : Pbft.Core) (s : Pbft.State) :
    (Pbft.setState c s).sequence = c.sequence := by
  unfold Pbft.setState Pbft.processBacklog
  split <;> rfl

/-- `setState` does not touch the view number. -/
lemma Pbft.setState_viewNumber (c : Pbft.Core) (s : Pbft.State) :
    (Pbft.setState c s).viewNumber = c.viewNumber := by
  unfold Pbft.setState Pbft.processBacklog
  split <;> rfl

/-- `setState` does not touch the completion flag. -/
lemma Pbft.setState_completed (c : Pbft.Core) (s : Pbft.State) :
    (Pbft.setState c s).completed = c.completed := by
  unfold Pbft.setState Pbft.processBacklog
  split <;> rfl

/-- `setState` does not touch the current round. -/
lemma Pbft.setState_current (c : Pbft.Core) (s : Pbft.State) :
    (Pbft.setState c s).current = c.current := by
  unfold Pbft.setState Pbft.processBacklog
  split <;> rfl

/-- `setState` does not touch the snapshot history. -/
lemma Pbft.setState_snapshots (c : Pbft.Core) (s : Pbft.State) :
    (Pbft.setState c s).snapshots = c.snapshots := by
  unfold Pbft.setState Pbft.processBacklog
  split <;> rfl

end Helpers

/-- C6: for every validator-set size N ≥ 1, `New` builds a core with
field `N` equal to that size and field `F` equal to ceil(N/3) − 1 in
exact integer arithmetic, characterized without division: F + 1 is the
least number of thirds covering N, i.e. 3·(F+1) ≥ N and 3·F < N; in
particular N = 3·f + 1 yields F = f. -/
theorem pbft_New_sets_N_and_F (n addr : Nat) (h : 1 ≤ n) :
    (Pbft.New n addr).N = n ∧
    n ≤ 3 * ((Pbft.New n addr).F + 1) ∧
    3 * (Pbft.New n addr).F < n ∧
    (∀ f : Nat, n = 3 * f + 1 → (Pbft.New n addr).F = f) := by
  have hd := Nat.div_add_mod (n + 2) 3
  have hm : (n + 2) % 3 < 3 := Nat.mod_lt _ (by norm_num)
  simp only [Pbft.New]
  refine ⟨by trivial, by omega, by omega, fun f hf => by omega⟩

/-- Witness for C6 at N = 4: the constructed core has N = 4 and
F = 1 (so quorum 2F+1 = 3). -/
theorem pbft_New_sets_N_and_F_witness :
    (Pbft.New 4 0).F = 1 ∧
    ((Pbft.New 4 0).N = 4 ∧
     4 ≤ 3 * ((Pbft.New 4 0).F + 1) ∧
     3 * (Pbft.New 4 0).F < 4 ∧
     (∀ f : Nat, 4 = 3 * f + 1 → (Pbft.New 4 0).F = f)) :=
  ⟨by decide, pbft_New_sets_N_and_F 4 0 (by decide)⟩

/-- C7: `setState` with a state different from the current one updates
the state field and invokes `processBacklog` exactly once (all other
fields unchanged — record-update form); with an equal state it is the
identity and performs no replay. -/
theorem pbft_setState_replay_once (c : Pbft.Core) (s : Pbft.State) :
    (c.state ≠ s →
      Pbft.setState c s =
        { c with state := s, backlogReplays := c.backlogReplays + 1 }) ∧
    (c.state = s → Pbft.setState c s = c) := by
  unfold Pbft.setState Pbft.processBacklog
  constructor
  · intro h
    simp [h]
  · intro h
    simp [h]

/-- Witness for C7: on a concrete core in `Prepared`, setting
`Committed` flips the state and bumps the replay count from 0 to 1,
while re-setting `Prepared` is a no-op. -/
theorem pbft_setState_replay_once_witness :
    (Samples.coreAt 1).state ≠ Pbft.State.Committed ∧
    Pbft.setState (Samples.coreAt 1) .Committed =
      { Samples.coreAt 1 with
        state := .Committed
        backlogReplays := (Samples.coreAt 1).backlogReplays + 1 } ∧
    Pbft.setState (Samples.coreAt 1) .Prepared = Samples.coreAt 1 :=
  ⟨by decide,
   (pbft_setState_replay_once (Samples.coreAt 1) .Committed).1 (by decide),
   (pbft_setState_replay_once (Samples.coreAt 1) .Prepared).2 (by decide)⟩

/-- C5: when a round is active, `commit()` succeeds and, after it
returns, the state is `AcceptRequest`, the completion flag is true, the
snapshot history equals the old history plus exactly the committed
round, the sequence and view number equal the committed round's values,
and the first backend effect is `Backend.Commit` of the accepted
proposal of the accepted Preprepare. -/
theorem pbft_commit_post (c : Pbft.Core) (cur : Pbft.Snapshot)
    (h : c.current = some cur) :
    ∃ c' effs, Pbft.commit c = some (c', effs) ∧
      c'.state = .AcceptRequest ∧
      c'.completed = true ∧
      c'.snapshots = c.snapshots ++ [cur] ∧
      c'.snapshots.length = c.snapshots.length + 1 ∧
      c'.sequence = cur.sequence ∧
      c'.viewNumber = cur.viewNumber ∧
      effs.head? = some (.backendCommit cur.preprepare.proposal) := by
  simp only [Pbft.commit, h]
  refine ⟨_, _, rfl, ?_, ?_, ?_, ?_, ?_, ?_, ?_⟩
  · exact Pbft.setState_state _ _
  · rw [Pbft.setState_completed]
  · rw [Pbft.setState_snapshots]
    simp only
    rw [Pbft.setState_snapshots]
  · rw [Pbft.setState_snapshots]
    simp only
    rw [Pbft.setState_snapshots]
    simp
  · rw [Pbft.setState_sequence]
  · rw [Pbft.setState_viewNumber]
  · rfl

/-- Witness for C5 on a concrete core committing the round at
sequence 1. -/
theorem pbft_commit_post_witness :
    (Samples.coreAt 1).current = some (Samples.snap 1) ∧
    (∃ c' effs, Pbft.commit (Samples.coreAt 1) = some (c', effs) ∧
      c'.state = .AcceptRequest ∧
      c'.completed = true ∧
      c'.snapshots = (Samples.coreAt 1).snapshots ++ [Samples.snap 1] ∧
      c'.snapshots.length = (Samples.coreAt 1).snapshots.length + 1 ∧
      c'.sequence = (Samples.snap 1).sequence ∧
      c'.viewNumber = (Samples.snap 1).viewNumber ∧
      effs.head? =
        some (.backendCommit (Samples.snap 1).preprepare.proposal)) :=
  ⟨rfl, pbft_commit_post (Samples.coreAt 1) (Samples.snap 1) rfl⟩

/-- C2: when a round is active, `commit()` posts exactly one
asynchronous `buildCheckpointEvent` iff the just-committed sequence is
divisible by 100 (zero posts otherwise); the post is a fire-and-forget
effect separate from the returned core, so it never alters the commit
state updates of the commit path. -/
theorem pbft_commit_checkpoint (c : Pbft.Core) (cur : Pbft.Snapshot)
    (h : c.current = some cur) :
    ∃ c' effs, Pbft.commit c = some (c', effs) ∧
      Pbft.countCheckpointPosts effs =
        (if cur.sequence % 100 = 0 then 1 else 0) := by
  simp only [Pbft.commit, h]
  refine ⟨_, _, rfl, ?_⟩
  rw [Pbft.setState_sequence]
  by_cases hseq : cur.sequence % 100 = 0 <;>
    simp [Pbft.countCheckpointPosts, hseq]

/-- Witness for C2: committing sequence 100 posts exactly one
checkpoint-build request; committing sequence 99 or 101 posts none. -/
theorem pbft_commit_checkpoint_witness :
    (∃ c' effs, Pbft.commit (Samples.coreAt 100) = some (c', effs) ∧
      Pbft.countCheckpointPosts effs =
        (if (Samples.snap 100).sequence % 100 = 0 then 1 else 0)) ∧
    Pbft.countCheckpointPosts
      ((Pbft.commit (Samples.coreAt 99)).getD (Samples.coreAt 99, [])).2
      = 0 ∧
    Pbft.countCheckpointPosts
      ((Pbft.commit (Samples.coreAt 101)).getD (Samples.coreAt 101, [])).2
      = 0 ∧
    Pbft.countCheckpointPosts
      ((Pbft.commit (Samples.coreAt 100)).getD (Samples.coreAt 100, [])).2
      = 1 :=
  ⟨pbft_commit_checkpoint (Samples.coreAt 100) (Samples.snap 100) rfl,
   by decide, by decide, by decide⟩

/-- C8: when `pbft.Encode` fails, or encoding succeeds but `ToPayload`
fails, `broadcast` returns the core completely unchanged (every field),
hands nothing to `Backend.Send`, and surfaces exactly the offending
error for logging. -/
theorem pbft_broadcast_drops_on_encode_error {Msg Enc Payload : Type}
    (encode : Nat → Msg → Except String Enc)
    (toPayload : Enc → Except String Payload)
    (c : Pbft.Core) (code : Nat) (msg : Msg) :
    (∀ e, encode code msg = .error e →
      Pbft.broadcast encode toPayload c code msg = (c, [], some e)) ∧
    (∀ m e, encode code msg = .ok m → toPayload m = .error e →
      Pbft.broadcast encode toPayload c code msg = (c, [], some e)) := by
  constructor
  · intro e he
    simp [Pbft.broadcast, he]
  · intro m e hm ht
    simp [Pbft.broadcast, hm, ht]

/-- Witness for C8: with a failing encoder (and, separately, a failing
serializer) the concrete core is returned untouched, no payload is
sent, and the error is surfaced. -/
theorem pbft_broadcast_drops_on_encode_error_witness :
    Pbft.broadcast Samples.encodeFail Samples.toPayloadOk
      (Samples.coreAt 1) 0 0 =
      (Samples.coreAt 1, [], some "encode failed") ∧
    Pbft.broadcast Samples.encodeOk Samples.toPayloadFail
      (Samples.coreAt 1) 0 0 =
      (Samples.coreAt 1, [], some "marshal failed") :=
  ⟨(pbft_broadcast_drops_on_encode_error Samples.encodeFail
      Samples.toPayloadOk (Samples.coreAt 1) 0 0).1 "encode failed" rfl,
   (pbft_broadcast_drops_on_encode_error Samples.encodeOk
      Samples.toPayloadFail (Samples.coreAt 1) 0 0).2 0 "marshal failed"
      rfl rfl⟩

/-- C9: `Save` returns an error exactly when JSON marshalling fails
(that error) or marshalling succeeds and the database `Put` fails (that
error), and succeeds exactly when both succeed; `Restore` returns an
error exactly when the database `Get` fails (that error) or `Get`
succeeds and JSON unmarshalling fails (that error), and succeeds
exactly when both succeed — no storage error is swallowed or replaced
on either path. -/
theorem simple_save_restore_propagate_errors {δ α : Type}
    (db : Simple.Database δ) (J : Simple.Json α)
    (d : δ) (key : String) (v : α) :
    (∀ e, Simple.Save db J d key v = .error e ↔
      J.marshal v = .error e ∨
      ∃ blob, J.marshal v = .ok blob ∧
        db.put d (Simple.getKey key) blob = .error e) ∧
    (∀ d', Simple.Save db J d key v = .ok d' ↔
      ∃ blob, J.marshal v = .ok blob ∧
        db.put d (Simple.getKey key) blob = .ok d') ∧
    (∀ e, Simple.Restore db J d key = (.error e : Except String α) ↔
      db.get d (Simple.getKey key) = .error e ∨
      ∃ blob, db.get d (Simple.getKey key) = .ok blob ∧
        J.unmarshal blob = .error e) ∧
    (∀ a, Simple.Restore db J d key = .ok a ↔
      ∃ blob, db.get d (Simple.getKey key) = .ok blob ∧
        J.unmarshal blob = .ok a) := by
  refine ⟨fun e => ?_, fun d' => ?_, fun e => ?_, fun a => ?_⟩
  · cases hm : J.marshal v <;> simp [Simple.Save, hm]
  · cases hm : J.marshal v <;> simp [Simple.Save, hm]
  · cases hg : db.get d (Simple.getKey key) <;>
      simp [Simple.Restore, hg]
    cases hu : J.unmarshal _ <;> simp [hu]
  · cases hg : db.get d (Simple.getKey key) <;>
      simp [Simple.Restore, hg]
    cases hu : J.unmarshal _ <;> simp [hu]

/-- C10: `Save` and `Restore` share the single key transformation
`getKey`, which prepends the `"pbft"` namespace with an underscore; so
for any key and value whose JSON encoding round-trips, and any
database whose `Get` after a successful `Put` yields the stored blob at
that key, a `Restore` after a successful `Save` reads the same
underlying key `"pbft_" ++ key` and decodes exactly the saved value. -/
theorem simple_getKey_roundtrip {δ α : Type}
    (db : Simple.Database δ) (J : Simple.Json α)
    (d d' : δ) (key : String) (v : α) (blob : Simple.Blob)
    (hm : J.marshal v = .ok blob)
    (hu : J.unmarshal blob = .ok v)
    (hput : db.put d (Simple.getKey key) blob = .ok d')
    (hget : db.get d' (Simple.getKey key) = .ok blob) :
    Simple.getKey key = "pbft_" ++ key ∧
    Simple.Save db J d key v = .ok d' ∧
    Simple.Restore db J d' key = .ok v := by
  refine ⟨rfl, ?_, ?_⟩
  · simp [Simple.Save, hm, hput]
  · simp [Simple.Restore, hget, hu]

/-- Witness for C10: on the concrete in-memory store, saving 7 under
key `"k"` stores blob `[7]` at `"pbft_k"`, and restoring `"k"` decodes
7 back. -/
theorem simple_getKey_roundtrip_witness :
    Simple.getKey "k" = "pbft_" ++ "k" ∧
    Simple.Save Simple.memDB Simple.natJson Samples.emptyStore "k" 7 =
      .ok Samples.savedStore ∧
    Simple.Restore Simple.memDB Simple.natJson Samples.savedStore "k" =
      .ok 7 :=
  simple_getKey_roundtrip Simple.memDB Simple.natJson
    Samples.emptyStore Samples.savedStore "k" 7 [7]
    rfl rfl rfl (by simp [Simple.memDB, Simple.memGet, Samples.savedStore])

/-- A subject carrying the own view of the current round state passes the
view check. -/
lemma Istanbul.checkMessage_current (c : Istanbul.ICore) :
    Istanbul.checkMessage c (Istanbul.RoundState.subject c.current).view
      = none := by
  simp [Istanbul.checkMessage, Istanbul.RoundState.subject, Istanbul.viewLt]

/-- C3: `verifyPrepare` accepts a Prepare vote (nil error) exactly when
its subject equals the current subject, and rejects every other vote —
digest mismatch at the same view, nil sequence, matching round with
different sequence, matching sequence with different round — with
`errInconsistentSubject`; and a vote so rejected makes `handlePrepare`
return that error with the core (and hence the prepare tally)
completely unchanged. -/
theorem ist_verifyPrepare_subject (c : Istanbul.ICore)
    (sub : Istanbul.Subject) :
    (Istanbul.verifyPrepare c sub = none ↔
      sub = c.current.subject) ∧
    (sub ≠ c.current.subject →
      Istanbul.verifyPrepare c sub = some .inconsistentSubject) ∧
    (∀ src, Istanbul.checkMessage c sub.view = none → src ∈ c.valSet →
      sub ≠ c.current.subject →
      Istanbul.handlePrepare c src sub =
        (c, [], some .inconsistentSubject)) := by
  refine ⟨?_, ?_, ?_⟩
  · unfold Istanbul.verifyPrepare
    split <;> simp_all
  · intro h
    simp [Istanbul.verifyPrepare, h]
  · intro src hc hm hne
    have hv : Istanbul.verifyPrepare c sub = some .inconsistentSubject := by
      simp [Istanbul.verifyPrepare, hne]
    simp [Istanbul.handlePrepare, hc, hm, hv]

/-- Witness for C3 on the concrete N = 4 core at view (round 0,
sequence 1) with accepted digest 5: a nil-sequence subject and a
wrong-digest subject are both rejected with the inconsistent-subject
error, the wrong-digest vote leaves the core untouched through
`handlePrepare`, and the exact current subject is accepted. -/
theorem ist_verifyPrepare_subject_witness :
    Istanbul.verifyPrepare Samples.iCore ⟨⟨some 0, none⟩, 5⟩ =
      some .inconsistentSubject ∧
    Istanbul.verifyPrepare Samples.iCore ⟨⟨some 0, some 1⟩, 6⟩ =
      some .inconsistentSubject ∧
    Istanbul.handlePrepare Samples.iCore 0 ⟨⟨some 0, some 1⟩, 6⟩ =
      (Samples.iCore, [], some .inconsistentSubject) ∧
    Istanbul.verifyPrepare Samples.iCore
      (Istanbul.RoundState.subject Samples.iCore.current) = none :=
  ⟨(ist_verifyPrepare_subject Samples.iCore ⟨⟨some 0, none⟩, 5⟩).2.1
     (by decide),
   (ist_verifyPrepare_subject Samples.iCore ⟨⟨some 0, some 1⟩, 6⟩).2.1
     (by decide),
   (ist_verifyPrepare_subject Samples.iCore ⟨⟨some 0, some 1⟩, 6⟩).2.2 0
     (by decide) (by decide) (by decide),
   (ist_verifyPrepare_subject Samples.iCore
      (Istanbul.RoundState.subject Samples.iCore.current)).1.mpr rfl⟩

/-- C4: a Prepare vote whose view is strictly below the current view
(sequence-major order) is dropped with `errOldMessage` and the core —
state, tallies, backlog — is returned unchanged; a vote whose view is
strictly above is queued in the backlog with `errFutureMessage`,
changing nothing but the backlog, and is not counted toward any
quorum. -/
theorem ist_handlePrepare_old_future (c : Istanbul.ICore) (src : Nat)
    (sub : Istanbul.Subject) (r s : Nat)
    (hv : sub.view = ⟨some r, some s⟩) :
    (Istanbul.viewLt s r c.current.sequence c.current.round →
      Istanbul.handlePrepare c src sub = (c, [], some .oldMessage)) ∧
    (Istanbul.viewLt c.current.sequence c.current.round s r →
      Istanbul.handlePrepare c src sub =
        ({ c with backlog := c.backlog ++ [(src, sub)] }, [],
         some .futureMessage)) := by
  constructor
  · intro hold
    have hc : Istanbul.checkMessage c sub.view = some .oldMessage := by
      rw [hv]
      simp [Istanbul.checkMessage, hold]
    simp [Istanbul.handlePrepare, hc]
  · intro hfut
    have hnotold :
        ¬ Istanbul.viewLt s r c.current.sequence c.current.round := by
      unfold Istanbul.viewLt at *
      omega
    have hc : Istanbul.checkMessage c sub.view = some .futureMessage := by
      rw [hv]
      simp [Istanbul.checkMessage, hnotold, hfut]
    simp [Istanbul.handlePrepare, hc]

/-- Witness for C4 on the concrete core at view (round 0, sequence 1):
a vote at (round 0, sequence 0) is dropped as old with the core
unchanged, and a vote at (round 2, sequence 3) is queued in the
backlog as future. -/
theorem ist_handlePrepare_old_future_witness :
    Istanbul.handlePrepare Samples.iCore 1 ⟨⟨some 0, some 0⟩, 5⟩ =
      (Samples.iCore, [], some .oldMessage) ∧
    Istanbul.handlePrepare Samples.iCore 1 ⟨⟨some 2, some 3⟩, 5⟩ =
      ({ Samples.iCore with
         backlog := Samples.iCore.backlog ++ [(1, ⟨⟨some 2, some 3⟩, 5⟩)] },
       [], some .futureMessage) :=
  ⟨(ist_handlePrepare_old_future Samples.iCore 1 ⟨⟨some 0, some 0⟩, 5⟩
      0 0 rfl).1 (by decide),
   (ist_handlePrepare_old_future Samples.iCore 1 ⟨⟨some 2, some 3⟩, 5⟩
      2 3 rfl).2 (by decide)⟩

/-- A vote carrying exactly the current view passes the view check. -/
lemma Istanbul.checkMessage_self (c : Istanbul.ICore) :
    Istanbul.checkMessage c
      ⟨some c.current.round, some c.current.sequence⟩ = none := by
  simp [Istanbul.checkMessage, Istanbul.viewLt]

/-- The current subject itself passes the subject check. -/
lemma Istanbul.verifyPrepare_self (c : Istanbul.ICore) :
    Istanbul.verifyPrepare c
      ⟨⟨some c.current.round, some c.current.sequence⟩, c.current.digest⟩
      = none := by
  simp [Istanbul.verifyPrepare, Istanbul.RoundState.subject]

/-- One valid Prepare vote from a fresh validator-set member appends
the sender to the prepare set; it triggers the quorum transition (state
to `Prepared`, one Commit broadcast for the current subject) exactly
when the set reaches 2F+1 while the state is still `Preprepared`. -/
lemma Istanbul.handlePrepare_valid_step (c : Istanbul.ICore) (v : Nat)
    (hm : v ∈ c.valSet) (hnew : v ∉ c.current.prepares) :
    Istanbul.handlePrepare c v (Istanbul.RoundState.subject c.current) =
      (if 2 * c.F + 1 ≤ c.current.prepares.length + 1 ∧
          c.state = Pbft.State.Preprepared then
        ({ c with
           state := .Prepared,
           current := { c.current with
                        prepares := c.current.prepares ++ [v] } },
         [(.msgCommit, Istanbul.RoundState.subject c.current)], none)
       else
        ({ c with
           current := { c.current with
                        prepares := c.current.prepares ++ [v] } },
         [], none)) := by
  by_cases hq : 2 * c.F + 1 ≤ c.current.prepares.length + 1 ∧
      c.state = Pbft.State.Preprepared <;>
    simp [Istanbul.handlePrepare, Istanbul.checkMessage_self,
      Istanbul.verifyPrepare_self, hm, Istanbul.acceptPrepare,
      hnew, Istanbul.RoundState.subject, hq]

/-- Processing a list of distinct fresh member votes for the current
subject: the prepare set grows by exactly those senders; from
`Prepared` nothing is ever sent; from `Preprepared` the core stays in
`Preprepared` with no sends while the total stays below 2F+1, and ends
in `Prepared` having sent exactly one Commit vote for the subject once
the total reaches 2F+1. -/
lemma Istanbul.handleAll_progress (vs : List Nat) :
    ∀ (c : Istanbul.ICore) (sub : Istanbul.Subject),
      sub = Istanbul.RoundState.subject c.current →
      vs.Nodup →
      (∀ v ∈ vs, v ∈ c.valSet) →
      (∀ v ∈ vs, v ∉ c.current.prepares) →
      (c.state = Pbft.State.Preprepared →
        c.current.prepares.length < 2 * c.F + 1) →
      (c.state = Pbft.State.Preprepared ∨ c.state = Pbft.State.Prepared) →
      (Istanbul.handleAll c sub vs).1.current.prepares
          = c.current.prepares ++ vs ∧
      (Istanbul.handleAll c sub vs).1.F = c.F ∧
      (c.state = Pbft.State.Prepared →
        (Istanbul.handleAll c sub vs).1.state = Pbft.State.Prepared ∧
        (Istanbul.handleAll c sub vs).2 = []) ∧
      (c.state = Pbft.State.Preprepared →
        (c.current.prepares.length + vs.length < 2 * c.F + 1 →
          (Istanbul.handleAll c sub vs).1.state = Pbft.State.Preprepared ∧
          (Istanbul.handleAll c sub vs).2 = []) ∧
        (2 * c.F + 1 ≤ c.current.prepares.length + vs.length →
          (Istanbul.handleAll c sub vs).1.state = Pbft.State.Prepared ∧
          (Istanbul.handleAll c sub vs).2
            = [(Istanbul.MsgCode.msgCommit, sub)])) := by
  induction vs with
  | nil =>
    intro c sub hsub hnd hmem hnewp hinv hst
    refine ⟨by simp [Istanbul.handleAll], rfl, ?_, ?_⟩
    · intro h
      exact ⟨h, rfl⟩
    · intro h
      refine ⟨fun _ => ⟨h, rfl⟩, fun hge => ?_⟩
      exfalso
      have := hinv h
      simp at hge
      omega
  | cons v vs ih =>
    intro c sub hsub hnd hmem hnewp hinv hst
    subst hsub
    have hmv : v ∈ c.valSet := hmem v (by simp)
    have hnv : v ∉ c.current.prepares := hnewp v (by simp)
    have hstep := Istanbul.handlePrepare_valid_step c v hmv hnv
    obtain ⟨hvvs, hndtail⟩ := List.nodup_cons.mp hnd
    by_cases hq : 2 * c.F + 1 ≤ c.current.prepares.length + 1 ∧
        c.state = Pbft.State.Preprepared
    · rw [if_pos hq] at hstep
      obtain ⟨hp, hF, hPrep, hPre⟩ :=
        ih { c with
             state := .Prepared,
             current := { c.current with
                          prepares := c.current.prepares ++ [v] } }
           (Istanbul.RoundState.subject c.current) rfl hndtail
           (fun v' hv' => hmem v' (List.mem_cons_of_mem _ hv'))
           (by
             intro v' hv'
             simp only [List.mem_append, List.mem_singleton]
             rintro (h | h)
             · exact hnewp v' (List.mem_cons_of_mem _ hv') h
             · exact hvvs (h ▸ hv'))
           (by intro h; simp at h)
           (Or.inr rfl)
      obtain ⟨hst2, hsent2⟩ := hPrep rfl
      simp only [Istanbul.handleAll, hstep]
      refine ⟨?_, hF, ?_, ?_⟩
      · rw [hp]
        simp
      · intro h
        rw [hq.2] at h
        simp at h
      · intro _
        refine ⟨fun hlt => ?_, fun _ => ⟨hst2, by simp [hsent2]⟩⟩
        exfalso
        obtain ⟨hq1, -⟩ := hq
        simp only [List.length_cons] at hlt
        omega
    · rw [if_neg hq] at hstep
      have hstate2 : (Istanbul.ICore.mk c.state c.valSet c.F
          { c.current with prepares := c.current.prepares ++ [v] }
          c.backlog).state = c.state := rfl
      obtain ⟨hp, hF, hPrep, hPre⟩ :=
        ih { c with
             current := { c.current with
                          prepares := c.current.prepares ++ [v] } }
           (Istanbul.RoundState.subject c.current) rfl hndtail
           (fun v' hv' => hmem v' (List.mem_cons_of_mem _ hv'))
           (by
             intro v' hv'
             simp only [List.mem_append, List.mem_singleton]
             rintro (h | h)
             · exact hnewp v' (List.mem_cons_of_mem _ hv') h
             · exact hvvs (h ▸ hv'))
           (by
             intro h
             have hc : c.state = Pbft.State.Preprepared := h
             have hnle : ¬ (2 * c.F + 1 ≤ c.current.prepares.length + 1) :=
               fun hle => hq ⟨hle, hc⟩
             show (c.current.prepares ++ [v]).length < 2 * c.F + 1
             simp only [List.length_append, List.length_singleton]
             omega)
           (by
             cases hst with
             | inl h => exact Or.inl h
             | inr h => exact Or.inr h)
      simp only [Istanbul.handleAll, hstep]
      refine ⟨?_, hF, ?_, ?_⟩
      · rw [hp]
        simp
      · intro h
        obtain ⟨hst2, hsent2⟩ := hPrep h
        exact ⟨hst2, by simp [hsent2]⟩
      · intro h
        have hlt1 : ¬ (2 * c.F + 1 ≤ c.current.prepares.length + 1) :=
          fun hle => hq ⟨hle, h⟩
        obtain ⟨hlow, hhigh⟩ := hPre h
        refine ⟨fun hlt => ?_, fun hge => ?_⟩
        · obtain ⟨hs2, he2⟩ := hlow (by
            simp only [List.length_append, List.length_singleton]
            simp at hlt
            omega)
          exact ⟨hs2, by simp [he2]⟩
        · obtain ⟨hs2, he2⟩ := hhigh (by
            simp only [List.length_append, List.length_singleton]
            simp at hge
            omega)
          exact ⟨hs2, by simp [he2]⟩

/-- C1: from `Preprepared` with an empty prepare set, handling Prepare
votes from distinct validator-set members whose subject equals the
current subject reaches `Prepared` exactly when the number of votes
reaches 2F+1, at which point exactly one Commit message is broadcast
and its decoded payload is a Subject equal to the current subject; with
strictly fewer votes the state remains `Preprepared` and nothing is
sent. -/
theorem ist_prepare_quorum_commit (c : Istanbul.ICore) (votes : List Nat)
    (sub : Istanbul.Subject)
    (hstate : c.state = Pbft.State.Preprepared)
    (hempty : c.current.prepares = [])
    (hsub : sub = Istanbul.RoundState.subject c.current)
    (hnodup : votes.Nodup)
    (hmem : ∀ v ∈ votes, v ∈ c.valSet) :
    ((Istanbul.handleAll c sub votes).1.state = Pbft.State.Prepared ↔
      2 * c.F + 1 ≤ votes.length) ∧
    (Istanbul.handleAll c sub votes).1.current.prepares.length
      = votes.length ∧
    (2 * c.F + 1 ≤ votes.length →
      (Istanbul.handleAll c sub votes).2 =
        [(Istanbul.MsgCode.msgCommit,
          Istanbul.RoundState.subject c.current)]) ∧
    (votes.length < 2 * c.F + 1 →
      (Istanbul.handleAll c sub votes).1.state = Pbft.State.Preprepared ∧
      (Istanbul.handleAll c sub votes).2 = []) := by
  subst hsub
  obtain ⟨hp, hF, hPrep, hPre⟩ :=
    Istanbul.handleAll_progress votes c _ rfl hnodup hmem
      (by intro v hv; rw [hempty]; simp)
      (by intro _; rw [hempty]; simp)
      (Or.inl hstate)
  obtain ⟨hlow, hhigh⟩ := hPre hstate
  have hlen0 : c.current.prepares.length = 0 := by rw [hempty]; rfl
  refine ⟨⟨?_, ?_⟩, ?_, ?_, ?_⟩
  · intro hps
    by_contra hnot
    push_neg at hnot
    obtain ⟨hs2, -⟩ := hlow (by omega)
    rw [hs2] at hps
    simp at hps
  · intro hge
    exact (hhigh (by omega)).1
  · rw [hp, hempty]
    simp
  · intro hge
    exact (hhigh (by omega)).2
  · intro hlt
    exact hlow (by omega)

/-- Witness for C1 with N = 4, F = 1: three distinct member votes
[0, 1, 2] flip the concrete core to `Prepared` with exactly one
Commit for the current subject, while two votes [0, 1] leave it in
`Preprepared` with nothing sent. -/
theorem ist_prepare_quorum_commit_witness :
    (((Istanbul.handleAll Samples.iCore
        (Istanbul.RoundState.subject Samples.iCore.current)
        [0, 1, 2]).1.state = Pbft.State.Prepared ↔
      2 * Samples.iCore.F + 1 ≤ 3) ∧
     (Istanbul.handleAll Samples.iCore
        (Istanbul.RoundState.subject Samples.iCore.current)
        [0, 1, 2]).1.current.prepares.length = 3 ∧
     (2 * Samples.iCore.F + 1 ≤ 3 →
      (Istanbul.handleAll Samples.iCore
          (Istanbul.RoundState.subject Samples.iCore.current)
          [0, 1, 2]).2 =
        [(Istanbul.MsgCode.msgCommit,
          Istanbul.RoundState.subject Samples.iCore.current)]) ∧
     (3 < 2 * Samples.iCore.F + 1 →
      (Istanbul.handleAll Samples.iCore
          (Istanbul.RoundState.subject Samples.iCore.current)
          [0, 1, 2]).1.state = Pbft.State.Preprepared ∧
      (Istanbul.handleAll Samples.iCore
          (Istanbul.RoundState.subject Samples.iCore.current)
          [0, 1, 2]).2 = [])) ∧
    ((Istanbul.handleAll Samples.iCore
        (Istanbul.RoundState.subject Samples.iCore.current)
        [0, 1]).1.state = Pbft.State.Preprepared ∧
     (Istanbul.handleAll Samples.iCore
        (Istanbul.RoundState.subject Samples.iCore.current)
        [0, 1]).2 = []) :=
  ⟨ist_prepare_quorum_commit Samples.iCore [0, 1, 2]
     (Istanbul.RoundState.subject Samples.iCore.current)
     rfl rfl rfl (by decide) (by decide),
   (ist_prepare_quorum_commit Samples.iCore [0, 1]
     (Istanbul.RoundState.subject Samples.iCore.current)
     rfl rfl rfl (by decide) (by decide)).2.2.2 (by decide)⟩
